import Mathlib

/-!
Shallow embedding of the lfmq repository: the SPSC ring-buffer queue
(include/lock_free_queue.hpp) and the fixed-size message envelope
(include/message.hpp together with src/message.cpp), with theorems
checking the specification claims against these definitions.
-/

namespace lfmq

/-- Message type tag enumeration, from include/message.hpp. -/
inductive MessageType where
  | UNKNOWN
  | RESUME
  | PAUSE
  | STOP
  | VOLUME
  | RESIZE
  | EFFECT_ADDED
  | EFFECT_REMOVED
  | EFFECT_ENABLED
  | EFFECT_DISABLED
  | PLAY_AT
deriving DecidableEq, Repr

/-- MessageMetadata: a wrapper holding the message type tag. -/
structure MessageMetadata where
  m_type : MessageType
deriving DecidableEq, Repr

/-- MessageMetadata() default constructor: tag UNKNOWN. -/
def MessageMetadata.mkDefault : MessageMetadata :=
  ⟨MessageType.UNKNOWN⟩

/-- MessageMetadata::get_type. -/
def MessageMetadata.get_type (md : MessageMetadata) : MessageType :=
  md.m_type

/-- MessageMetadata::set_type (src/message.cpp). -/
def MessageMetadata.set_type (_md : MessageMetadata) (t : MessageType) : MessageMetadata :=
  ⟨t⟩

/-- Message::MAX_MESSAGE_SIZE, half of 1 Kb. -/
def MAX_MESSAGE_SIZE : Nat := 512

/-- Message envelope: type tag, a char buffer of MAX_MESSAGE_SIZE bytes
(modelled as a list of byte values of length MAX_MESSAGE_SIZE), and the
occupied payload size (include/message.hpp). -/
structure Message where
  metadata : MessageMetadata
  payload : List Nat
  payload_size : Nat
deriving DecidableEq, Repr

/-- Message() default constructor: tag UNKNOWN, zero-initialized payload
buffer, occupied size 0. -/
def Message.mkDefault : Message :=
  { metadata := MessageMetadata.mkDefault
    payload := List.replicate MAX_MESSAGE_SIZE 0
    payload_size := 0 }

/-- Message::set_payload(const void*, size_t) (src/message.cpp lines
18-27), the private byte-level overload. `none` models a null data
pointer; `some d` models a pointer to a region whose bytes are `d`.
The memcpy of `size` bytes is modelled as overwriting the first `size`
bytes of the payload buffer. Returns the updated message and the bool
result. -/
def Message.set_payload_raw (m : Message) (data : Option (List Nat)) (size : Nat) :
    Message × Bool :=
  match data with
  | none => (m, false)
  | some d =>
    if size > MAX_MESSAGE_SIZE then (m, false)
    else ({ m with payload := d.take size ++ m.payload.drop size, payload_size := size }, true)

/-- A C++ value passed to the templated Message constructor or
set_payload, together with its value category, which drives template
argument deduction against the forwarding-reference parameter: either a
trivially-copyable non-pointer value given by its object-representation
bytes (its category changes nothing observable), or a pointer lvalue, or
a pointer rvalue; a pointer is given by the byte representation of the
pointer object itself, `none` standing for the null pointer. -/
inductive CVal where
  | plain (bytes : List Nat)
  | ptrLval (rep : Option (List Nat))
  | ptrRval (rep : Option (List Nat))
deriving DecidableEq, Repr

/-- std::is_pointer_v of the template parameter deduced from this
argument: deduction against a forwarding reference makes the parameter a
reference type for an lvalue argument — is_pointer_v is then false even
when the referenced type is a pointer — and the pointer type itself only
for a pointer rvalue. -/
def CVal.is_pointer_v : CVal → Bool
  | .ptrRval _ => true
  | _ => false

/-- Whether the value is a null pointer (data == nullptr). -/
def CVal.isNullPtr : CVal → Bool
  | .ptrLval none => true
  | .ptrRval none => true
  | _ => false

/-- The value as seen by a further deducing call that receives it through
a named parameter: a named parameter is an lvalue, whatever the category
of the original argument was. -/
def CVal.asLvalue : CVal → CVal
  | .plain b => CVal.plain b
  | .ptrLval r => CVal.ptrLval r
  | .ptrRval r => CVal.ptrLval r

/-- Object-representation bytes reached through `&data`: for a pointer
this is the representation of the pointer object itself (the payload is
treated as a T**, per the source comment). The null pointer carries the
fixed all-zero 8-byte representation. -/
def CVal.bytes : CVal → List Nat
  | .plain b => b
  | .ptrLval (some r) => r
  | .ptrRval (some r) => r
  | .ptrLval none => List.replicate 8 0
  | .ptrRval none => List.replicate 8 0

/-- sizeof the static type of the value, the number of bytes memcpy
copies; sizeof applied to a reference type yields the size of the
referenced type, so the value category does not change it. -/
def CVal.byteSize (v : CVal) : Nat := v.bytes.length

/-- Message::set_payload<T>(T&&) (include/message.hpp lines 117-130).
The null check sits under `if constexpr (std::is_pointer_v<_T>)` with _T
deduced against the forwarding reference, so the check is compiled in
only for a pointer rvalue argument; every other call — including a null
pointer passed as an lvalue — goes straight to the byte-level overload,
which copies the sizeof(_T) object-representation bytes (for a pointer,
the bytes of the pointer itself, treating the payload as T**). -/
def Message.set_payload (m : Message) (data : CVal) : Message × Bool :=
  if data.is_pointer_v && data.isNullPtr then (m, false)
  else m.set_payload_raw (some data.bytes) data.byteSize

/-- Message(const MessageMetadata&, _T&&) (include/message.hpp lines
69-86): initializes the tag from metadata, value-initializes the payload
buffer to zero and the occupied size to 0, then calls set_payload(data).
That inner call passes the named parameter data, an lvalue, so the inner
template parameter deduces to a reference type and set_payload performs
no null check; the constructor then throws (modelled as Except.error)
when its own _T is a pointer type and set_payload failed — a combination
that cannot occur, leaving the throw unreachable. -/
def Message.mkWith (md : MessageMetadata) (data : CVal) : Except String Message :=
  let m0 : Message :=
    { metadata := md, payload := List.replicate MAX_MESSAGE_SIZE 0, payload_size := 0 }
  let r := m0.set_payload data.asLvalue
  if data.is_pointer_v && !r.2 then
    Except.error "Null pointer passed in as data"
  else
    Except.ok r.1

/-- Message::get_payload<T>() (include/message.hpp lines 97-104):
reinterprets the first sizeof(T) payload bytes as a T; modelled as those
bytes. -/
def Message.get_payload (m : Message) (size : Nat) : List Nat :=
  m.payload.take size

/-- Message::get_payload_size(). -/
def Message.get_payload_size (m : Message) : Nat :=
  m.payload_size

/-- Message::get_metadata(). -/
def Message.get_metadata (m : Message) : MessageMetadata :=
  m.metadata

/-- Message::set_metadata (src/message.cpp lines 29-31). -/
def Message.set_metadata (m : Message) (md : MessageMetadata) : Message :=
  { m with metadata := md }

/-- friend swap(Message&, Message&) (include/message.hpp lines 132-138),
exactly as written in the source: the first line exchanges lhs.metadata
with lhs.metadata itself, so both tags stay where they were; then the
payload buffers and the occupied sizes are exchanged. -/
def swap (lhs rhs : Message) : Message × Message :=
  ({ lhs with payload := rhs.payload, payload_size := rhs.payload_size },
   { rhs with payload := lhs.payload, payload_size := lhs.payload_size })

/-- Sample envelope with tag VOLUME, payload of 1-bytes, occupied size 4. -/
def swapDemoA : Message :=
  { metadata := ⟨MessageType.VOLUME⟩
    payload := List.replicate MAX_MESSAGE_SIZE 1
    payload_size := 4 }

/-- Sample envelope with tag PAUSE, payload of 2-bytes, occupied size 8. -/
def swapDemoB : Message :=
  { metadata := ⟨MessageType.PAUSE⟩
    payload := List.replicate MAX_MESSAGE_SIZE 2
    payload_size := 8 }

/-- C5: the swap in the source exchanges the payload bytes and the
occupied sizes but leaves both type tags unchanged — the code swaps
lhs.metadata with itself instead of with rhs.metadata — refuting the
claim that the metadata tag is exchanged, shown on two envelopes with
distinct tags. -/
theorem swap_keeps_both_tags :
    (swap swapDemoA swapDemoB).1.metadata = ⟨MessageType.VOLUME⟩
    ∧ (swap swapDemoA swapDemoB).2.metadata = ⟨MessageType.PAUSE⟩
    ∧ (swap swapDemoA swapDemoB).1.payload = swapDemoB.payload
    ∧ (swap swapDemoA swapDemoB).1.payload_size = 8
    ∧ (swap swapDemoA swapDemoB).2.payload = swapDemoA.payload
    ∧ (swap swapDemoA swapDemoB).2.payload_size = 4 :=
  ⟨rfl, rfl, rfl, rfl, rfl, rfl⟩

set_option maxRecDepth 4000 in
/-- C6: construction from a null pointer payload does not fail in the
code. The constructor's internal set_payload(data) call passes an
lvalue, the deduced template parameter is a reference type,
std::is_pointer_v of it is false, the null check is discarded and the
byte copy succeeds, so the constructor's throw is unreachable:
construction from a null pointer — whatever its value category —
succeeds, storing the null pointer's 8-byte representation with occupied
size 8; a null pointer passed to set_payload as an lvalue likewise
returns true. Only a null pointer rvalue passed directly to set_payload
hits the check and returns false with the envelope unchanged. -/
theorem null_construction_succeeds :
    (Message.mkWith ⟨MessageType.VOLUME⟩ (CVal.ptrRval none)).toOption
      = some { metadata := ⟨MessageType.VOLUME⟩, payload := List.replicate MAX_MESSAGE_SIZE 0, payload_size := 8 }
    ∧ (Message.mkWith ⟨MessageType.VOLUME⟩ (CVal.ptrLval none)).toOption
      = some { metadata := ⟨MessageType.VOLUME⟩, payload := List.replicate MAX_MESSAGE_SIZE 0, payload_size := 8 }
    ∧ (Message.mkDefault.set_payload (CVal.ptrLval none)).2 = true
    ∧ (Message.mkDefault.set_payload (CVal.ptrLval none)).1.get_payload_size = 8
    ∧ Message.mkDefault.set_payload (CVal.ptrRval none) = (Message.mkDefault, false) := by
  refine ⟨?_, ?_, rfl, rfl, rfl⟩ <;> decide

/-- C7: constructing an envelope with tag VOLUME and a trivially-copyable
payload of at most MAX_MESSAGE_SIZE bytes, or setting it on an existing
envelope, then reading the payload back with the same type, yields the
same bytes, and the occupied size equals sizeof the payload. -/
theorem payload_roundtrip (bytes : List Nat) (m0 m : Message)
    (hsz : bytes.length ≤ MAX_MESSAGE_SIZE) :
    (Message.mkWith ⟨MessageType.VOLUME⟩ (CVal.plain bytes) = Except.ok m →
      m.get_payload bytes.length = bytes ∧ m.get_payload_size = bytes.length)
    ∧ (m0.set_payload (CVal.plain bytes)).1.get_payload bytes.length = bytes
    ∧ (m0.set_payload (CVal.plain bytes)).1.get_payload_size = bytes.length := by
  have hcore : ∀ mm : Message,
      (mm.set_payload (CVal.plain bytes)).1.get_payload bytes.length = bytes
      ∧ (mm.set_payload (CVal.plain bytes)).1.get_payload_size = bytes.length := by
    intro mm
    unfold Message.set_payload Message.set_payload_raw
    simp only [CVal.is_pointer_v, CVal.isNullPtr, CVal.bytes, CVal.byteSize,
      Bool.false_and, Bool.false_eq_true, if_false]
    rw [if_neg (Nat.not_lt.mpr hsz)]
    constructor
    · unfold Message.get_payload
      simp only
      rw [List.take_length bytes]
      exact List.take_left bytes _
    · rfl
  refine ⟨?_, hcore m0⟩
  intro hok
  unfold Message.mkWith at hok
  dsimp only at hok
  simp only [CVal.asLvalue, CVal.is_pointer_v, Bool.false_and, Bool.false_eq_true,
    if_false, Except.ok.injEq] at hok
  subst hok
  exact hcore _

/-- Witness for C7 at concrete inputs. -/
theorem payload_roundtrip_witness :
    ([5, 6] : List Nat).length ≤ MAX_MESSAGE_SIZE
    ∧ ((Message.mkDefault.set_payload (CVal.plain [5, 6])).1.get_payload
        ([5, 6] : List Nat).length = [5, 6]
      ∧ (Message.mkDefault.set_payload (CVal.plain [5, 6])).1.get_payload_size
        = ([5, 6] : List Nat).length) :=
  ⟨by decide,
    (payload_roundtrip [5, 6] Message.mkDefault Message.mkDefault (by decide)).2⟩

/-- Envelope states reachable through the Message public interface: the
default constructor, the tagged constructor, and any sequence of
set_payload, set_metadata and swap calls. The sizeof bound on payload
arguments is the template requires clause, checked at compile time in the
source. -/
inductive Message.Reachable : Message → Prop where
  | mkDefault : Message.Reachable Message.mkDefault
  | mkWith (md : MessageMetadata) (data : CVal) (m : Message) :
      data.byteSize ≤ MAX_MESSAGE_SIZE →
      Message.mkWith md data = Except.ok m →
      Message.Reachable m
  | set_payload (m : Message) (data : CVal) :
      Message.Reachable m → data.byteSize ≤ MAX_MESSAGE_SIZE →
      Message.Reachable (m.set_payload data).1
  | set_metadata (m : Message) (md : MessageMetadata) :
      Message.Reachable m → Message.Reachable (m.set_metadata md)
  | swapFst (a b : Message) :
      Message.Reachable a → Message.Reachable b →
      Message.Reachable (swap a b).1
  | swapSnd (a b : Message) :
      Message.Reachable a → Message.Reachable b →
      Message.Reachable (swap a b).2

/-- Passing a value on as an lvalue does not change its sizeof. -/
theorem byteSize_asLvalue (v : CVal) : v.asLvalue.byteSize = v.byteSize := by
  cases v with
  | plain b => rfl
  | ptrLval r => rfl
  | ptrRval r => cases r <;> rfl

/-- The occupied size after any set_payload call is either unchanged or
equal to the sizeof of the payload argument. -/
theorem set_payload_size_cases (m : Message) (data : CVal) :
    (m.set_payload data).1.payload_size = m.payload_size
    ∨ (m.set_payload data).1.payload_size = data.byteSize := by
  unfold Message.set_payload Message.set_payload_raw
  split
  · exact Or.inl rfl
  · simp only
    split
    · exact Or.inl rfl
    · exact Or.inr rfl

/-- C8: every envelope reachable through the public interface has
occupied payload size at most MAX_MESSAGE_SIZE. -/
theorem payload_size_invariant (m : Message) (h : Message.Reachable m) :
    m.get_payload_size ≤ MAX_MESSAGE_SIZE := by
  unfold Message.get_payload_size
  induction h with
  | mkDefault => decide
  | mkWith md data m2 hsz hok =>
    unfold Message.mkWith at hok
    dsimp only at hok
    split at hok
    · exact absurd hok (by simp)
    · simp only [Except.ok.injEq] at hok
      subst hok
      rcases set_payload_size_cases
        { metadata := md, payload := List.replicate MAX_MESSAGE_SIZE 0, payload_size := 0 }
        data.asLvalue with h0 | h0 <;> rw [h0]
      · exact Nat.zero_le _
      · rw [byteSize_asLvalue]
        exact hsz
  | set_payload m2 data _hr hsz ih =>
    rcases set_payload_size_cases m2 data with h0 | h0 <;> rw [h0]
    · exact ih
    · exact hsz
  | set_metadata m2 md _hr ih => exact ih
  | swapFst a b _ha _hb iha ihb => exact ihb
  | swapSnd a b _ha _hb iha ihb => exact iha

/-- Witness for C8: the default-constructed envelope. -/
theorem payload_size_invariant_witness :
    Message.mkDefault.get_payload_size ≤ MAX_MESSAGE_SIZE :=
  payload_size_invariant Message.mkDefault Message.Reachable.mkDefault

/-- C10: set_metadata changes only the type tag — payload bytes and
occupied size are unchanged — and every set_payload call (templated or
byte-level, succeeding or failing) leaves the type tag unchanged. -/
theorem metadata_payload_frame (m : Message) (md : MessageMetadata)
    (data : CVal) (raw : Option (List Nat)) (size : Nat) :
    (m.set_metadata md).payload = m.payload
    ∧ (m.set_metadata md).payload_size = m.payload_size
    ∧ (m.set_payload data).1.metadata = m.metadata
    ∧ (m.set_payload_raw raw size).1.metadata = m.metadata := by
  refine ⟨rfl, rfl, ?_, ?_⟩
  · unfold Message.set_payload Message.set_payload_raw
    split
    · rfl
    · simp only
      split <;> rfl
  · unfold Message.set_payload_raw
    cases raw with
    | none => rfl
    | some d =>
      simp only
      split <;> rfl

/-- SPSC ring buffer (include/lock_free_queue.hpp): N fixed slots of type
T, a read index and a write index. The slot array is modelled as a
function from slot number to element; the C++ template requires a
default-constructible T and N > 2. -/
structure SpscQueue (T : Type) (N : Nat) where
  elements : Nat → T
  read_index : Nat
  write_index : Nat

/-- Freshly constructed queue: slots default-initialized, both indices 0. -/
def SpscQueue.init (T : Type) [Inhabited T] (N : Nat) : SpscQueue T N :=
  { elements := fun _ => default, read_index := 0, write_index := 0 }

/-- Assignment elements[j] = v on the modelled slot array. -/
def writeSlot {T : Type} (f : Nat → T) (j : Nat) (v : T) : Nat → T :=
  fun i => if i = j then v else f i

/-- Index increment with the wraparound test written as in the source:
increment, and reset to 0 when the result reaches the capacity. -/
def wrapInc (N i : Nat) : Nat :=
  if i + 1 = N then 0 else i + 1

/-- SpscQueue::_push (include/lock_free_queue.hpp lines 109-128), the body
of both push overloads: compute the candidate next write index with
wraparound; when it equals the read index the queue is full and nothing
changes; otherwise store the element at the current write index and
publish the new write index. -/
def SpscQueue.push {T : Type} {N : Nat} (q : SpscQueue T N) (v : T) :
    SpscQueue T N × Bool :=
  let curr_write_index := q.write_index
  let next_write_index := wrapInc N curr_write_index
  if q.read_index = next_write_index then (q, false)
  else
    ({ q with elements := writeSlot q.elements curr_write_index v, write_index := next_write_index }, true)

/-- SpscQueue::pop (include/lock_free_queue.hpp lines 45-66). The out
pointer is modelled as an `Option T` holding the pointed-to value
(`none` = nullptr); the middle component of the result is the contents of
that location after the call. -/
def SpscQueue.pop {T : Type} {N : Nat} (q : SpscQueue T N) (out : Option T) :
    SpscQueue T N × Option T × Bool :=
  let curr_read_index := q.read_index
  let curr_write_index := q.write_index
  if curr_read_index = curr_write_index then (q, out, false)
  else
    let out2 : Option T :=
      match out with
      | none => none
      | some _ => some (q.elements curr_read_index)
    ({ q with read_index := wrapInc N curr_read_index }, out2, true)

/-- SpscQueue::front. -/
def SpscQueue.front {T : Type} {N : Nat} (q : SpscQueue T N) : T :=
  q.elements q.read_index

/-- SpscQueue::is_empty. -/
def SpscQueue.is_empty {T : Type} {N : Nat} (q : SpscQueue T N) : Bool :=
  q.read_index == q.write_index

/-- SpscQueue::capacity. -/
def SpscQueue.capacity {T : Type} {N : Nat} (_q : SpscQueue T N) : Nat := N

/-- Both indices in range [0, N): established at construction and
preserved by push and pop. -/
def SpscQueue.Inv {T : Type} {N : Nat} (q : SpscQueue T N) : Prop :=
  q.read_index < N ∧ q.write_index < N

instance {T : Type} {N : Nat} (q : SpscQueue T N) : Decidable q.Inv := by
  unfold SpscQueue.Inv
  infer_instance

/-- The wraparound increment agrees with (i + 1) mod N on in-range
indices. -/
theorem wrapInc_eq_mod {N i : Nat} (h : i < N) : wrapInc N i = (i + 1) % N := by
  unfold wrapInc
  rcases Nat.lt_or_ge (i + 1) N with h1 | h1
  · rw [if_neg (by omega), Nat.mod_eq_of_lt h1]
  · have h2 : i + 1 = N := by omega
    rw [if_pos h2, h2, Nat.mod_self]

/-- C2: push fails, returning the queue unchanged and false, exactly when
(write index + 1) mod N equals the read index; otherwise it stores the
element at the current write index, advances the write index to
(write index + 1) mod N, and returns true. -/
theorem push_spec {T : Type} {N : Nat} (q : SpscQueue T N) (v : T)
    (hw : q.write_index < N) :
    (q.push v = (q, false) ↔ (q.write_index + 1) % N = q.read_index)
    ∧ ((q.write_index + 1) % N ≠ q.read_index →
        q.push v = ({ q with elements := writeSlot q.elements q.write_index v, write_index := (q.write_index + 1) % N }, true)) := by
  unfold SpscQueue.push
  dsimp only
  rw [wrapInc_eq_mod hw]
  constructor
  · constructor
    · intro h
      by_contra hne
      rw [if_neg (fun he => hne he.symm)] at h
      exact absurd (congrArg Prod.snd h) (by simp)
    · intro h
      rw [if_pos h.symm]
  · intro hne
    rw [if_neg (fun he => hne he.symm)]

/-- Witness for C2 on a concrete queue: a fresh 4-slot queue of Nat. -/
theorem push_spec_witness :
    (SpscQueue.init Nat 4).write_index < 4
    ∧ ((SpscQueue.init Nat 4).push 7 = (SpscQueue.init Nat 4, false)
        ↔ ((SpscQueue.init Nat 4).write_index + 1) % 4 = (SpscQueue.init Nat 4).read_index)
    ∧ (((SpscQueue.init Nat 4).write_index + 1) % 4 ≠ (SpscQueue.init Nat 4).read_index →
        (SpscQueue.init Nat 4).push 7 = ({ SpscQueue.init Nat 4 with elements := writeSlot (SpscQueue.init Nat 4).elements (SpscQueue.init Nat 4).write_index 7, write_index := ((SpscQueue.init Nat 4).write_index + 1) % 4 }, true)) :=
  ⟨by decide, push_spec (SpscQueue.init Nat 4) 7 (by decide)⟩

/-- C3: pop fails, leaving the queue and the out location untouched and
returning false, exactly when the read index equals the write index;
otherwise it returns true, writes the slot at the current read index
through the out pointer when one is provided (and nothing when it is
null), and advances the read index to (read index + 1) mod N; the slot
storage itself is never modified by pop. -/
theorem pop_spec {T : Type} {N : Nat} (q : SpscQueue T N) (out : Option T)
    (hr : q.read_index < N) :
    (q.read_index = q.write_index → q.pop out = (q, out, false))
    ∧ ((q.pop out).2.2 = false ↔ q.read_index = q.write_index)
    ∧ (q.read_index ≠ q.write_index →
        q.pop out = ({ q with read_index := (q.read_index + 1) % N }, (match out with | none => none | some _ => some (q.elements q.read_index)), true))
    ∧ (q.pop out).1.elements = q.elements := by
  unfold SpscQueue.pop
  dsimp only
  rw [wrapInc_eq_mod hr]
  refine ⟨fun h => by rw [if_pos h], ?_, fun h => by rw [if_neg h], ?_⟩
  · constructor
    · intro h
      by_contra hne
      rw [if_neg hne] at h
      exact absurd h (by simp)
    · intro h
      rw [if_pos h]
  · split <;> rfl

/-- Witness for C3 on a concrete queue: a fresh 4-slot queue of Nat with
an out pointer to a cell holding 9. -/
theorem pop_spec_witness :
    (SpscQueue.init Nat 4).read_index < 4
    ∧ (((SpscQueue.init Nat 4).read_index = (SpscQueue.init Nat 4).write_index →
          (SpscQueue.init Nat 4).pop (some 9) = (SpscQueue.init Nat 4, some 9, false))
      ∧ (((SpscQueue.init Nat 4).pop (some 9)).2.2 = false
          ↔ (SpscQueue.init Nat 4).read_index = (SpscQueue.init Nat 4).write_index)
      ∧ ((SpscQueue.init Nat 4).read_index ≠ (SpscQueue.init Nat 4).write_index →
          (SpscQueue.init Nat 4).pop (some 9) = ({ SpscQueue.init Nat 4 with read_index := ((SpscQueue.init Nat 4).read_index + 1) % 4 }, (match (some 9 : Option Nat) with | none => none | some _ => some ((SpscQueue.init Nat 4).elements (SpscQueue.init Nat 4).read_index)), true))
      ∧ ((SpscQueue.init Nat 4).pop (some 9)).1.elements = (SpscQueue.init Nat 4).elements) :=
  ⟨by decide, pop_spec (SpscQueue.init Nat 4) (some 9) (by decide)⟩

/-- C++ std::memory_order values. -/
inductive MemOrder where
  | relaxed
  | consume
  | acquire
  | release
  | acq_rel
  | seq_cst
deriving DecidableEq, Repr

/-- Orders that give a load acquire semantics or stronger. -/
def MemOrder.providesAcquire : MemOrder → Bool
  | .acquire | .acq_rel | .seq_cst => true
  | _ => false

/-- Orders that give a store release semantics or stronger. -/
def MemOrder.providesRelease : MemOrder → Bool
  | .release | .acq_rel | .seq_cst => true
  | _ => false

/-- Shared-memory accesses performed by the queue operations, with the
memory order of each atomic index access. -/
inductive QueueAccess where
  | loadReadIndex (o : MemOrder)
  | loadWriteIndex (o : MemOrder)
  | storeReadIndex (o : MemOrder)
  | storeWriteIndex (o : MemOrder)
  | writeElement
  | readElement
deriving DecidableEq, Repr

/-- The memory order of an access when it is an atomic index access. -/
def QueueAccess.indexOrder : QueueAccess → Option MemOrder
  | .loadReadIndex o => some o
  | .loadWriteIndex o => some o
  | .storeReadIndex o => some o
  | .storeWriteIndex o => some o
  | _ => none

/-- An index load provides at least acquire; an index store provides at
least release; element accesses are not atomic index accesses. -/
def QueueAccess.meetsAcqRel : QueueAccess → Bool
  | .loadReadIndex o => o.providesAcquire
  | .loadWriteIndex o => o.providesAcquire
  | .storeReadIndex o => o.providesRelease
  | .storeWriteIndex o => o.providesRelease
  | _ => true

/-- Program-order access sequence of the successful path of
SpscQueue::_push (lines 112-127): load of write_index, load of
read_index, element store, store of write_index. The source passes no
memory_order argument to load or store, so every atomic access uses the
C++ default, memory_order_seq_cst. -/
def pushAccesses : List QueueAccess :=
  [QueueAccess.loadWriteIndex MemOrder.seq_cst,
   QueueAccess.loadReadIndex MemOrder.seq_cst,
   QueueAccess.writeElement,
   QueueAccess.storeWriteIndex MemOrder.seq_cst]

/-- Program-order access sequence of the successful path of
SpscQueue::pop (lines 46-65): load of read_index, load of write_index,
element read, store of read_index; all defaults, hence seq_cst. -/
def popAccesses : List QueueAccess :=
  [QueueAccess.loadReadIndex MemOrder.seq_cst,
   QueueAccess.loadWriteIndex MemOrder.seq_cst,
   QueueAccess.readElement,
   QueueAccess.storeReadIndex MemOrder.seq_cst]

/-- Atomic index accesses of front() (lines 73-84) and is_empty()
(lines 98-100), also with the default seq_cst order. -/
def queryAccesses : List QueueAccess :=
  [QueueAccess.loadReadIndex MemOrder.seq_cst,
   QueueAccess.loadReadIndex MemOrder.seq_cst,
   QueueAccess.loadWriteIndex MemOrder.seq_cst]

/-- C9: in push the write-index store is release-or-stronger and is
program-ordered after the element write, and the read-index load is
acquire-or-stronger and comes before the element write; in pop the
write-index load is acquire-or-stronger and comes before the element
read, and the read-index store is release-or-stronger and comes after it;
and every atomic index access in the queue (push, pop, front, is_empty)
meets the acquire/release pairing and none is relaxed. -/
theorem memory_ordering_spec :
    (pushAccesses.get? 2 = some QueueAccess.writeElement
      ∧ pushAccesses.get? 3 = some (QueueAccess.storeWriteIndex MemOrder.seq_cst)
      ∧ MemOrder.seq_cst.providesRelease = true)
    ∧ (pushAccesses.get? 1 = some (QueueAccess.loadReadIndex MemOrder.seq_cst)
      ∧ MemOrder.seq_cst.providesAcquire = true)
    ∧ (popAccesses.get? 1 = some (QueueAccess.loadWriteIndex MemOrder.seq_cst)
      ∧ popAccesses.get? 2 = some QueueAccess.readElement
      ∧ popAccesses.get? 3 = some (QueueAccess.storeReadIndex MemOrder.seq_cst))
    ∧ (∀ a ∈ pushAccesses ++ popAccesses ++ queryAccesses,
        a.meetsAcqRel = true ∧ a.indexOrder ≠ some MemOrder.relaxed) := by
  refine ⟨⟨rfl, rfl, rfl⟩, ⟨rfl, rfl⟩, ⟨rfl, rfl, rfl⟩, ?_⟩
  decide

/-- Number of occupied slots determined by the two in-range indices. -/
def queueLen (N r w : Nat) : Nat :=
  if r ≤ w then w - r else w + N - r

/-- Abstraction function: the occupied slots, read from the read index
upward with wraparound. -/
def SpscQueue.toList {T : Type} {N : Nat} (q : SpscQueue T N) : List T :=
  (List.range (queueLen N q.read_index q.write_index)).map
    (fun i => q.elements ((q.read_index + i) % N))

/-- Refinement target, following the spec: push on a bounded FIFO list
queue of the given capacity refuses a full queue and otherwise appends at
the back. -/
def boundedPush {T : Type} (cap : Nat) (l : List T) (v : T) : List T × Bool :=
  if l.length = cap then (l, false) else (l ++ [v], true)

/-- Refinement target, following the spec: pop on the bounded FIFO list
queue takes from the front and fails on the empty queue. -/
def boundedPop {T : Type} : List T → List T × Option T
  | [] => ([], none)
  | x :: xs => (xs, some x)

theorem queueLen_le {N r w : Nat} (hr : r < N) (hw : w < N) :
    queueLen N r w ≤ N - 1 := by
  unfold queueLen
  split <;> omega

theorem queueLen_eq_zero_iff {N r w : Nat} (hr : r < N) (hw : w < N) :
    queueLen N r w = 0 ↔ r = w := by
  unfold queueLen
  split <;> omega

theorem toList_length {T : Type} {N : Nat} (q : SpscQueue T N) :
    q.toList.length = queueLen N q.read_index q.write_index := by
  unfold SpscQueue.toList
  rw [List.length_map, List.length_range]

/-- Reduction of a ring index to its two linear cases. -/
theorem ringIdx {N r i : Nat} (hr : r < N) (hi : i < N) :
    (r + i) % N = if r + i < N then r + i else r + i - N := by
  split
  · exact Nat.mod_eq_of_lt (by omega)
  · rw [Nat.mod_eq_sub_mod (by omega)]
    exact Nat.mod_eq_of_lt (by omega)

/-- The full test of the source coincides with the occupied count being
N - 1. -/
theorem full_iff {N r w : Nat} (hr : r < N) (hw : w < N) :
    (r = wrapInc N w) ↔ queueLen N r w = N - 1 := by
  unfold wrapInc queueLen
  split_ifs <;> omega

/-- The slot the producer writes next is just past the occupied range. -/
theorem write_slot_eq {N r w : Nat} (hr : r < N) (hw : w < N) :
    (r + queueLen N r w) % N = w := by
  unfold queueLen
  split
  · have : r + (w - r) = w := by omega
    rw [this, Nat.mod_eq_of_lt hw]
  · have : r + (w + N - r) = w + N := by omega
    rw [this, Nat.add_mod_right, Nat.mod_eq_of_lt hw]

/-- Occupied slots are distinct from the slot the producer writes next. -/
theorem occupied_ne_write {N r w i : Nat} (hr : r < N) (hw : w < N)
    (hi : i < queueLen N r w) : (r + i) % N ≠ w := by
  have hiN : i < N := by
    have := queueLen_le hr hw
    omega
  rw [ringIdx hr hiN]
  unfold queueLen at hi
  split at hi <;> split <;> omega

theorem queueLen_push {N r w : Nat} (hr : r < N) (hw : w < N)
    (hnf : queueLen N r w ≠ N - 1) :
    queueLen N r (wrapInc N w) = queueLen N r w + 1 := by
  unfold queueLen at hnf ⊢
  unfold wrapInc
  split_ifs at hnf ⊢ <;> omega

theorem queueLen_pop {N r w : Nat} (hr : r < N) (hw : w < N) (hne : r ≠ w) :
    queueLen N (wrapInc N r) w = queueLen N r w - 1 := by
  unfold queueLen wrapInc
  split_ifs <;> omega

theorem wrapInc_lt {N i : Nat} (hN : 0 < N) (hi : i < N) : wrapInc N i < N := by
  unfold wrapInc
  split <;> omega

/-- Push on a full queue: the state is returned unchanged with false. -/
theorem push_full_sim {T : Type} {N : Nat} (q : SpscQueue T N) (v : T)
    (hr : q.read_index < N) (hw : q.write_index < N)
    (hf : queueLen N q.read_index q.write_index = N - 1) :
    q.push v = (q, false) := by
  unfold SpscQueue.push
  dsimp only
  rw [if_pos ((full_iff hr hw).mpr hf)]

/-- Push on a non-full queue: it succeeds and the abstraction appends the
element at the back. -/
theorem push_succ_sim {T : Type} {N : Nat} (q : SpscQueue T N) (v : T)
    (hr : q.read_index < N) (hw : q.write_index < N)
    (hnf : queueLen N q.read_index q.write_index ≠ N - 1) :
    (q.push v).2 = true ∧ (q.push v).1.read_index = q.read_index
    ∧ (q.push v).1.write_index = wrapInc N q.write_index
    ∧ (q.push v).1.toList = q.toList ++ [v] := by
  have hcond : q.read_index ≠ wrapInc N q.write_index := fun h =>
    hnf ((full_iff hr hw).mp h)
  unfold SpscQueue.push
  dsimp only
  rw [if_neg hcond]
  refine ⟨rfl, rfl, rfl, ?_⟩
  unfold SpscQueue.toList
  dsimp only
  rw [queueLen_push hr hw hnf, List.range_succ, List.map_append]
  congr 1
  · apply List.map_congr_left
    intro i hi
    rw [List.mem_range] at hi
    unfold writeSlot
    rw [if_neg (occupied_ne_write hr hw hi)]
  · dsimp only [List.map]
    unfold writeSlot
    rw [write_slot_eq hr hw, if_pos rfl]

/-- The abstraction is empty exactly when the indices coincide. -/
theorem toList_eq_nil_iff {T : Type} {N : Nat} (q : SpscQueue T N)
    (hr : q.read_index < N) (hw : q.write_index < N) :
    q.toList = [] ↔ q.read_index = q.write_index := by
  rw [← List.length_eq_zero, toList_length]
  exact queueLen_eq_zero_iff hr hw

/-- Pop on an empty queue: state and out location unchanged, false. -/
theorem pop_empty_sim {T : Type} {N : Nat} (q : SpscQueue T N) (out : Option T)
    (h : q.read_index = q.write_index) :
    q.pop out = (q, out, false) := by
  unfold SpscQueue.pop
  dsimp only
  rw [if_pos h]

/-- Pop on a non-empty queue: it succeeds, the abstraction loses its
head — the slot at the read index — and that head is what is written
through a non-null out pointer. -/
theorem pop_succ_sim {T : Type} {N : Nat} (q : SpscQueue T N) (out : Option T)
    (hr : q.read_index < N) (hw : q.write_index < N)
    (hne : q.read_index ≠ q.write_index) :
    (q.pop out).2.2 = true
    ∧ (q.pop out).1.read_index = wrapInc N q.read_index
    ∧ (q.pop out).1.write_index = q.write_index
    ∧ q.toList = q.elements q.read_index :: (q.pop out).1.toList
    ∧ (q.pop out).2.1 = (match out with | none => none | some _ => some (q.elements q.read_index)) := by
  unfold SpscQueue.pop
  dsimp only
  rw [if_neg hne]
  refine ⟨rfl, rfl, rfl, ?_, rfl⟩
  unfold SpscQueue.toList
  dsimp only
  have hlen0 : queueLen N q.read_index q.write_index ≠ 0 := fun h =>
    hne ((queueLen_eq_zero_iff hr hw).mp h)
  have hlen : queueLen N q.read_index q.write_index
      = queueLen N (wrapInc N q.read_index) q.write_index + 1 := by
    rw [queueLen_pop hr hw hne]
    omega
  rw [hlen, List.range_succ_eq_map, List.map_cons, List.map_map]
  congr 1
  · rw [Nat.add_zero, Nat.mod_eq_of_lt hr]
  · apply List.map_congr_left
    intro i hi
    simp only [Function.comp]
    rw [wrapInc_eq_mod hr, Nat.mod_add_mod]
    congr 2
    omega

/-- An operation of the sequential producer/consumer interleaving. -/
inductive QueueOp (T : Type) where
  | push (v : T)
  | pop

/-- Run a sequence of operations on the concrete queue, collecting the
values accepted by successful pushes and the values obtained by
successful pops (each pop passes an out pointer, as a consumer that
retrieves elements does). -/
def runSpsc {T : Type} {N : Nat} [Inhabited T] :
    SpscQueue T N → List (QueueOp T) → SpscQueue T N × List T × List T
  | q, [] => (q, [], [])
  | q, QueueOp.push v :: ops =>
    let r := q.push v
    let rest := runSpsc r.1 ops
    (rest.1, (if r.2 then [v] else []) ++ rest.2.1, rest.2.2)
  | q, QueueOp.pop :: ops =>
    let r := q.pop (some default)
    let rest := runSpsc r.1 ops
    (rest.1, rest.2.1, (if r.2.2 then r.2.1.toList else []) ++ rest.2.2)

/-- Run the same operations on the bounded FIFO list queue. -/
def runBounded {T : Type} (cap : Nat) :
    List T → List (QueueOp T) → List T × List T × List T
  | l, [] => (l, [], [])
  | l, QueueOp.push v :: ops =>
    let r := boundedPush cap l v
    let rest := runBounded cap r.1 ops
    (rest.1, (if r.2 then [v] else []) ++ rest.2.1, rest.2.2)
  | l, QueueOp.pop :: ops =>
    let r := boundedPop l
    let rest := runBounded cap r.1 ops
    (rest.1, rest.2.1, r.2.toList ++ rest.2.2)

/-- Forward simulation: started from related states, the concrete queue
and the bounded list queue of capacity N - 1 accept the same pushes,
return the same popped values, and end in related states. -/
theorem run_sim {T : Type} [Inhabited T] {N : Nat} :
    ∀ (ops : List (QueueOp T)) (q : SpscQueue T N),
      q.read_index < N → q.write_index < N →
      (runSpsc q ops).1.toList = (runBounded (N - 1) q.toList ops).1
      ∧ (runSpsc q ops).2.1 = (runBounded (N - 1) q.toList ops).2.1
      ∧ (runSpsc q ops).2.2 = (runBounded (N - 1) q.toList ops).2.2
      ∧ (runSpsc q ops).1.read_index < N ∧ (runSpsc q ops).1.write_index < N := by
  intro ops
  induction ops with
  | nil =>
    intro q hr hw
    exact ⟨rfl, rfl, rfl, hr, hw⟩
  | cons op rest ih =>
    intro q hr hw
    cases op with
    | push v =>
      simp only [runSpsc, runBounded]
      by_cases hf : queueLen N q.read_index q.write_index = N - 1
      · have hc := push_full_sim q v hr hw hf
        have habs : boundedPush (N - 1) q.toList v = (q.toList, false) := by
          unfold boundedPush
          rw [if_pos (by rw [toList_length]; exact hf)]
        rw [hc, habs]
        dsimp only
        obtain ⟨h1, h2, h3, h4, h5⟩ := ih q hr hw
        exact ⟨h1, by rw [h2], h3, h4, h5⟩
      · obtain ⟨hb, hrd, hwr, htl⟩ := push_succ_sim q v hr hw hf
        have habs : boundedPush (N - 1) q.toList v = (q.toList ++ [v], true) := by
          unfold boundedPush
          rw [if_neg (by rw [toList_length]; exact hf)]
        rw [habs, hb]
        dsimp only
        have hr2 : (q.push v).1.read_index < N := by rw [hrd]; exact hr
        have hw2 : (q.push v).1.write_index < N := by
          rw [hwr]; exact wrapInc_lt (by omega) hw
        obtain ⟨h1, h2, h3, h4, h5⟩ := ih (q.push v).1 hr2 hw2
        rw [htl] at h1 h2 h3
        exact ⟨h1, by rw [h2], h3, h4, h5⟩
    | pop =>
      simp only [runSpsc, runBounded]
      by_cases he : q.read_index = q.write_index
      · have hc := pop_empty_sim q (some default) he
        have htl : q.toList = [] := (toList_eq_nil_iff q hr hw).mpr he
        rw [hc, htl]
        dsimp only [boundedPop, Option.toList]
        obtain ⟨h1, h2, h3, h4, h5⟩ := ih q hr hw
        rw [htl] at h1 h2 h3
        exact ⟨h1, h2, h3, h4, h5⟩
      · obtain ⟨hb, hrd, hwr, htl, hout⟩ := pop_succ_sim q (some default) hr hw he
        rw [htl, hb, hout]
        dsimp only [boundedPop, Option.toList]
        have hr2 : (q.pop (some default)).1.read_index < N := by
          rw [hrd]; exact wrapInc_lt (by omega) hr
        have hw2 : (q.pop (some default)).1.write_index < N := by
          rw [hwr]; exact hw
        obtain ⟨h1, h2, h3, h4, h5⟩ := ih (q.pop (some default)).1 hr2 hw2
        refine ⟨h1, h2, ?_, h4, h5⟩
        rw [if_pos rfl, h3]

/-- Conservation on the bounded list queue: what has been popped followed
by what is still queued is the initial content followed by what was
accepted. -/
theorem runBounded_balance {T : Type} (cap : Nat) :
    ∀ (ops : List (QueueOp T)) (l : List T),
      (runBounded cap l ops).2.2 ++ (runBounded cap l ops).1
        = l ++ (runBounded cap l ops).2.1 := by
  intro ops
  induction ops with
  | nil =>
    intro l
    simp [runBounded]
  | cons op rest ih =>
    intro l
    cases op with
    | push v =>
      simp only [runBounded]
      unfold boundedPush
      split
      · dsimp only
        rw [if_neg Bool.false_ne_true, List.nil_append]
        exact ih l
      · dsimp only
        rw [if_pos rfl, ih (l ++ [v]), List.append_assoc]
    | pop =>
      simp only [runBounded]
      cases l with
      | nil =>
        dsimp only [boundedPop, Option.toList]
        rw [List.nil_append, ih []]
      | cons x xs =>
        dsimp only [boundedPop, Option.toList]
        simp only [List.cons_append, List.nil_append]
        rw [ih xs]

/-- C1: starting from the empty queue, any sequential interleaving of
pushes and pops produces exactly the accepted pushes, popped values and
final content of a bounded FIFO list queue of capacity N - 1, and the
popped values are, in order, a prefix of the accepted pushes (the
remainder being what is still queued): no reordering, coalescing or
batching. -/
theorem fifo_refinement {T : Type} [Inhabited T] {N : Nat} (hN : 2 < N)
    (ops : List (QueueOp T)) :
    (runSpsc (SpscQueue.init T N) ops).2.1 = (runBounded (N - 1) [] ops).2.1
    ∧ (runSpsc (SpscQueue.init T N) ops).2.2 = (runBounded (N - 1) [] ops).2.2
    ∧ (runSpsc (SpscQueue.init T N) ops).1.toList = (runBounded (N - 1) [] ops).1
    ∧ (runSpsc (SpscQueue.init T N) ops).2.2 ++ (runSpsc (SpscQueue.init T N) ops).1.toList
        = (runSpsc (SpscQueue.init T N) ops).2.1 := by
  have hr0 : (SpscQueue.init T N).read_index < N := by
    show 0 < N
    omega
  have hw0 : (SpscQueue.init T N).write_index < N := by
    show 0 < N
    omega
  have h0 : (SpscQueue.init T N).toList = [] :=
    (toList_eq_nil_iff (SpscQueue.init T N) hr0 hw0).mpr rfl
  obtain ⟨h1, h2, h3, h4, h5⟩ := run_sim ops (SpscQueue.init T N) hr0 hw0
  rw [h0] at h1 h2 h3
  refine ⟨h2, h3, h1, ?_⟩
  rw [h1, h2, h3, runBounded_balance (N - 1) ops [], List.nil_append]

/-- Concrete operation sequence used by the refinement witness: fills a
4-slot queue past its usable capacity and drains it. -/
def demoOps : List (QueueOp Nat) :=
  [QueueOp.push 1, QueueOp.push 2, QueueOp.pop, QueueOp.push 3,
   QueueOp.push 4, QueueOp.push 5, QueueOp.pop, QueueOp.pop, QueueOp.pop]

/-- Witness for C1 on the 4-slot queue of Nat. -/
theorem fifo_refinement_witness :
    2 < 4
    ∧ ((runSpsc (SpscQueue.init Nat 4) demoOps).2.1 = (runBounded (4 - 1) [] demoOps).2.1
      ∧ (runSpsc (SpscQueue.init Nat 4) demoOps).2.2 = (runBounded (4 - 1) [] demoOps).2.2
      ∧ (runSpsc (SpscQueue.init Nat 4) demoOps).1.toList = (runBounded (4 - 1) [] demoOps).1
      ∧ (runSpsc (SpscQueue.init Nat 4) demoOps).2.2 ++ (runSpsc (SpscQueue.init Nat 4) demoOps).1.toList
          = (runSpsc (SpscQueue.init Nat 4) demoOps).2.1) :=
  ⟨by omega, @fifo_refinement Nat _ 4 (by omega) demoOps⟩

/-- Repeated pushes with no intervening pops, collecting each boolean
result in order. -/
def pushSeq {T : Type} {N : Nat} : SpscQueue T N → List T → SpscQueue T N × List Bool
  | q, [] => (q, [])
  | q, v :: vs =>
    let r := q.push v
    let rest := pushSeq r.1 vs
    (rest.1, r.2 :: rest.2)

/-- From any valid state, the number of occupied slots plus the number of
successful pushes in a pop-free run is bounded by N - 1. -/
theorem pushSeq_count {T : Type} {N : Nat} :
    ∀ (vs : List T) (q : SpscQueue T N), q.read_index < N → q.write_index < N →
      queueLen N q.read_index q.write_index + (pushSeq q vs).2.count true ≤ N - 1 := by
  intro vs
  induction vs with
  | nil =>
    intro q hr hw
    simp only [pushSeq, List.count_nil]
    exact queueLen_le hr hw
  | cons v vs ih =>
    intro q hr hw
    simp only [pushSeq]
    by_cases hf : queueLen N q.read_index q.write_index = N - 1
    · rw [push_full_sim q v hr hw hf]
      dsimp only
      have hrec := ih q hr hw
      simp only [List.count_cons, beq_iff_eq, reduceCtorEq, if_false] at hrec ⊢
      omega
    · obtain ⟨hb, hrd, hwr, _htl⟩ := push_succ_sim q v hr hw hf
      have hr2 : (q.push v).1.read_index < N := by
        rw [hrd]; exact hr
      have hw2 : (q.push v).1.write_index < N := by
        rw [hwr]; exact wrapInc_lt (by omega) hw
      have hrec := ih (q.push v).1 hr2 hw2
      rw [hrd, hwr, queueLen_push hr hw hf] at hrec
      rw [hb]
      simp only [List.count_cons, beq_self_eq_true, if_true, if_pos] at hrec ⊢
      omega

/-- A pop-free run that fits in the free space succeeds at every push and
grows the occupied count by its length. -/
theorem pushSeq_all_true {T : Type} {N : Nat} :
    ∀ (vs : List T) (q : SpscQueue T N), q.read_index < N → q.write_index < N →
      queueLen N q.read_index q.write_index + vs.length ≤ N - 1 →
      (pushSeq q vs).2 = List.replicate vs.length true
      ∧ (pushSeq q vs).1.read_index < N ∧ (pushSeq q vs).1.write_index < N
      ∧ queueLen N (pushSeq q vs).1.read_index (pushSeq q vs).1.write_index
          = queueLen N q.read_index q.write_index + vs.length := by
  intro vs
  induction vs with
  | nil =>
    intro q hr hw _hfit
    exact ⟨rfl, hr, hw, rfl⟩
  | cons v vs ih =>
    intro q hr hw hfit
    simp only [pushSeq, List.length_cons] at hfit ⊢
    have hle := queueLen_le hr hw
    have hf : queueLen N q.read_index q.write_index ≠ N - 1 := by omega
    obtain ⟨hb, hrd, hwr, _htl⟩ := push_succ_sim q v hr hw hf
    have hr2 : (q.push v).1.read_index < N := by
      rw [hrd]; exact hr
    have hw2 : (q.push v).1.write_index < N := by
      rw [hwr]; exact wrapInc_lt (by omega) hw
    have hlen2 : queueLen N (q.push v).1.read_index (q.push v).1.write_index
        = queueLen N q.read_index q.write_index + 1 := by
      rw [hrd, hwr]
      exact queueLen_push hr hw hf
    obtain ⟨ha, hb2, hc2, hd2⟩ := ih (q.push v).1 hr2 hw2 (by omega)
    refine ⟨?_, hb2, hc2, by omega⟩
    rw [List.replicate_succ, hb, ha]

/-- C4: in any pop-free run from a valid state at most N - 1 pushes
return true, whatever the values; and from a freshly constructed queue
the first N - 1 pushes all succeed while the next push fails. -/
theorem usable_capacity {T : Type} [Inhabited T] {N : Nat} (hN : 2 < N)
    (q : SpscQueue T N) (hr : q.read_index < N) (hw : q.write_index < N)
    (vs ws : List T) (v : T) (hws : ws.length = N - 1) :
    (pushSeq q vs).2.count true ≤ N - 1
    ∧ (pushSeq (SpscQueue.init T N) ws).2 = List.replicate (N - 1) true
    ∧ ((pushSeq (SpscQueue.init T N) ws).1.push v).2 = false := by
  have hr0 : (SpscQueue.init T N).read_index < N := by
    show 0 < N
    omega
  have hw0 : (SpscQueue.init T N).write_index < N := by
    show 0 < N
    omega
  have hlen0 : queueLen N (SpscQueue.init T N).read_index (SpscQueue.init T N).write_index = 0 := by
    show queueLen N 0 0 = 0
    unfold queueLen
    simp
  refine ⟨?_, ?_, ?_⟩
  · have := pushSeq_count vs q hr hw
    omega
  · have := pushSeq_all_true ws (SpscQueue.init T N) hr0 hw0 (by omega)
    rw [hws] at this
    exact this.1
  · obtain ⟨_, hr2, hw2, hfin⟩ := pushSeq_all_true ws (SpscQueue.init T N) hr0 hw0 (by omega)
    rw [push_full_sim (pushSeq (SpscQueue.init T N) ws).1 v hr2 hw2 (by omega)]

/-- Witness for C4 on the 4-slot queue of Nat. -/
theorem usable_capacity_witness :
    (2 < 4 ∧ (SpscQueue.init Nat 4).read_index < 4
      ∧ (SpscQueue.init Nat 4).write_index < 4
      ∧ ([7, 8, 9] : List Nat).length = 4 - 1)
    ∧ ((pushSeq (SpscQueue.init Nat 4) [1, 2, 3, 4, 5]).2.count true ≤ 4 - 1
      ∧ (pushSeq (SpscQueue.init Nat 4) [7, 8, 9]).2 = List.replicate (4 - 1) true
      ∧ ((pushSeq (SpscQueue.init Nat 4) [7, 8, 9]).1.push 10).2 = false) :=
  ⟨⟨by omega, by decide, by decide, by decide⟩,
    usable_capacity (by omega) (SpscQueue.init Nat 4) (by decide) (by decide)
      [1, 2, 3, 4, 5] [7, 8, 9] 10 (by decide)⟩

end lfmq
